import Mathlib

/-!
Verification development for the activity-classification core of
scikit-digital-health (file src/skimu/activity/core.py).

The Python code is shallowly embedded: 1-D numpy arrays become Lean lists,
float arithmetic on exactly-representable dyadic data becomes rational
arithmetic over a type where the float NaN sentinel is `Option.none`, and
code that can raise a Python exception returns `Except String`.
Machine-float rounding is not modelled; every theorem below that depends on
a quotient such as 60 / wlen carries the engine invariant `wlen ∣ 60`,
under which the Python float expressions are exact.

External collaborators that are not part of the repository (numpy slice
assignment, scipy.stats.linregress) are modelled from their documented
behaviour; functions of the repository that are referenced but whose file
is not under src/ (skimu.utility.moving_mean,
skimu.utility.internal.get_day_index_intersection,
skimu.activity.cutpoints) are modelled from the specification, as flagged
in their doc comments.
-/

deriving instance DecidableEq for Except

/-- Float value: `none` models the IEEE NaN sentinel, `some q` a real value. -/
abbrev FVal := Option ℚ

/-- Addition on float values: NaN absorbs, mirroring IEEE semantics of the
accumulating `+=` updates in the Python code. -/
def fadd (a b : FVal) : FVal :=
  match a, b with
  | some x, some y => some (x + y)
  | _, _ => none

/-- Python slice endpoint resolution for a 1-D array of length `size`:
a negative index counts from the end and is clamped at 0, a non-negative
index is clamped at `size`. -/
def pyBound (i : ℤ) (size : ℕ) : ℕ :=
  if i < 0 then size - min size (-i).toNat else min i.toNat size

/-- Python slice `xs[a:b]` for non-negative bounds. -/
def pySliceList (xs : List α) (a b : ℕ) : List α :=
  (xs.take b).drop a

/-- Sum of the integer slice `x[a:b]`, as in the Python `sum(x[start:end])`. -/
def sumSliceZ (x : List ℤ) (a b : ℕ) : ℤ :=
  ((x.take b).drop a).sum

/-- Indices of the nonzero entries, as in `numpy.nonzero(x)[0]` (ascending). -/
def nonzeroIdx (x : List ℤ) : List ℕ :=
  (List.range x.length).filter (fun i => x.getD i 0 ≠ 0)

/-- Index of the first `true`, as `numpy.argmax` on a boolean vector
(0 when the vector is all-false or empty). -/
def npArgmaxBool (bs : List Bool) : ℕ :=
  match bs.findIdx? id with
  | some j => j
  | none => 0

/-- Write value `v` at each listed index (out-of-range indices are impossible
at every call site below because the index lists are pre-filtered). -/
def setIdxs (arr : List ℤ) (idxs : List ℕ) (v : ℤ) : List ℤ :=
  idxs.foldl (fun a i => a.set i v) arr

/-- Numpy slice assignment `arr[start:stop] = vals`: succeeds when the value
array matches the slice length, broadcasts a length-1 value array, and
raises ValueError otherwise — modelled from the documented numpy
broadcasting rule for assignment. -/
def npSetSlice (arr : List α) (start stop : ℤ) (vals : List α) : Except String (List α) :=
  let lo := pyBound start arr.length
  let hi := pyBound stop arr.length
  let L := hi - lo
  if vals.length = L then
    .ok (arr.take lo ++ vals ++ arr.drop (lo + L))
  else
    match vals with
    | [v] => .ok (arr.take lo ++ List.replicate L v ++ arr.drop (lo + L))
    | _ => .error "ValueError: could not broadcast input array into slice"

/-- Ceiling of `m / 2` for an integer `m`, written with natural-number
division so that the arithmetic stays omega-friendly. -/
def ceilHalf (m : ℤ) : ℤ :=
  if 0 ≤ m then ((m.toNat + 1) / 2 : ℕ) else -(((-m).toNat / 2 : ℕ) : ℤ)

/-- Python round(n / 2) for a natural `n`: round-half-even rounding of the exact
half, as the CPython round builtin applies to the float `nboutdur / 2`. -/
def pyRoundHalf (n : ℕ) : ℕ :=
  if n % 2 = 0 then n / 2
  else if (n / 2) % 2 = 0 then n / 2 else n / 2 + 1

/-- Cast an integer list to rationals (numpy int array fed to a float op). -/
def castZ (x : List ℤ) : List ℚ :=
  x.map Int.cast

/-- Modelled from the spec: skimu.utility.moving_mean is imported by
src/skimu/activity/core.py but its file is not under src/.  Spec section 4.1:
for a sequence of length N, window w and step s the result is the per-window
arithmetic mean for every start 0, s, 2s, ... whose window fits entirely,
of length floor((N - w)/s) + 1, or empty when N < w; no padding. -/
def moving_mean (x : List ℚ) (w s : ℕ) : List ℚ :=
  if w = 0 ∨ s = 0 ∨ x.length < w then []
  else (List.range ((x.length - w) / s + 1)).map
    (fun i => ((x.drop (i * s)).take w).sum / (w : ℚ))

/-- Threshold-band membership mask, from
`((accm >= lower_thresh) & (accm < upper_thresh)).astype(int_)`
(core.py lines 443/465/485/505/533). -/
def actMask (accm : List ℚ) (lower upper : ℚ) : List ℤ :=
  accm.map (fun a => if lower ≤ a ∧ a < upper then 1 else 0)

/-- Greedy expansion of the bout window in boutmetric 1 (core.py line 451):
`while (sum(x[start:end]) > ((end - start) * boutcrit)) and (end < x.size)`.
The fuel argument only bounds the iteration count; `x.length + 1` fuel is
always sufficient because `e` grows strictly towards `x.length`. -/
def bm1_expand (x : List ℤ) (bc : ℚ) (start : ℕ) : ℕ → ℕ → ℕ
  | 0, e => e
  | fuel + 1, e =>
    if ((sumSliceZ x start e : ℚ) > ((e - start : ℕ) : ℚ) * bc) ∧ e < x.length then
      bm1_expand x bc start fuel (e + 1)
    else e

/-- Scan loop of boutmetric 1 (core.py lines 446-463).  `p` is the fixed
list of indices of in-band epochs; the index `i_mvpa` advances by `jump`
at least 1 per iteration, so fuel `p.length + 1` is always sufficient. -/
def bm1_loop (x : List ℤ) (p : List ℕ) (nb : ℕ) (bc : ℚ) (cb : Bool) (wlen : ℕ) :
    ℕ → ℕ → ℚ → ℚ
  | 0, _, acc => acc
  | fuel + 1, i, acc =>
    if i < p.length then
      let start := p.getD i 0
      let e0 := start + nb
      if e0 < x.length then
        if (sumSliceZ x start e0 : ℚ) > (nb : ℚ) * bc then
          let e := bm1_expand x bc start (x.length + 1) e0
          let select := (p.drop i).filter (fun q => q < e)
          let jump := max select.length 1
          let add : ℚ :=
            if cb then
              ((p.getD (npArgmaxBool (p.map (fun q => decide (q < e)))) 0 : ℚ) - (start : ℚ))
                * ((wlen : ℚ) / 60)
            else (jump : ℚ) * ((wlen : ℚ) / 60)
          bm1_loop x p nb bc cb wlen fuel (i + jump) (acc + add)
        else bm1_loop x p nb bc cb wlen fuel (i + 1) acc
      else bm1_loop x p nb bc cb wlen fuel (i + 1) acc
    else acc

/-- Time in bouts under boutmetric 1 (core.py lines 442-463). -/
def bm1_time (mask : List ℤ) (nb : ℕ) (bc : ℚ) (cb : Bool) (wlen : ℕ) : ℚ :=
  let p := nonzeroIdx mask
  bm1_loop mask p nb bc cb wlen (p.length + 1) 0 0

/-- One iteration of the boutmetric-2 loop (core.py lines 470-481), acting on
the mutable pair (x, xt). -/
def bm2_step (nb : ℕ) (bc : ℚ) (p : List ℕ) (st : List ℤ × List ℤ) (i : ℕ) :
    List ℤ × List ℤ :=
  let x := st.1
  let xt := st.2
  let start := p.getD i 0
  let e0 := start + nb
  if e0 < x.length then
    if (sumSliceZ x start (e0 + 1) : ℚ) > (nb : ℚ) * bc then
      (x, setIdxs xt ((List.range (e0 + 1 - start)).map (fun k => start + k)) 2)
    else (x.set start 0, xt)
  else
    if p.length > 1 ∧ i > 2 then (x.set (p.getD i 0) (x.getD (p.getD (i - 1) 0) 0), xt)
    else (x, xt)

/-- Time in bouts under boutmetric 2 (core.py lines 464-483): relabel
qualifying windows through xt, demote failing starts in x, then credit
`sum(x)` epochs after `x[xt == 2] = 1`. -/
def bm2_time (mask : List ℤ) (nb : ℕ) (bc : ℚ) (wlen : ℕ) : ℚ :=
  let p := nonzeroIdx mask
  let out := (List.range p.length).foldl (bm2_step nb bc p) (mask, List.replicate mask.length 0)
  let xf := (List.zip out.1 out.2).map (fun q => if q.2 = 2 then 1 else q.1)
  (xf.sum : ℚ) * ((wlen : ℚ) / 60)

/-- Break-penalised working array xt for boutmetrics 3, 4 and 5
(core.py lines 488-494, 507-514, 535-542): a 1-minute moving mean is written
into `lookforbreaks` over a metric-specific slice (numpy broadcast rules
apply, so this step can raise), and epochs where `lookforbreaks == 0` are
replaced by the large negative penalty `-(60 / wlen) * nboutdur`. -/
def bm345_xt (mask : List ℤ) (wlen nb bm : ℕ) : Except String (List ℤ) :=
  let n := mask.length
  let N := 60 / wlen
  let pen : ℤ := -(((60 * nb) / wlen : ℕ) : ℤ)
  let mm := if bm = 5 then moving_mean (castZ mask) (N + 1) 1 else moving_mean (castZ mask) N 1
  let start : ℤ := if bm = 3 then ((N / 2 : ℕ) : ℤ) else (((N + 1) / 2 : ℕ) : ℤ) - 1
  let stop : ℤ :=
    if bm = 3 then 1 - (((N + 1) / 2 : ℕ) : ℤ)
    else ceilHalf (2 * (n : ℤ) - (N : ℤ)) - (if bm = 5 then 1 else 0)
  (npSetSlice (List.replicate n (0 : ℚ)) start stop mm).map
    (fun lfb => (List.zip lfb mask).map (fun q => if q.1 = 0 then pen else q.2))

/-- Qualifying window starts for boutmetrics 3, 4 and 5 (core.py lines
495-497, 517-524, 545-552): indices where the `nboutdur`-epoch moving mean
of xt exceeds the criterion (meets it, for metric 5); metrics 4 and 5 then
probe `x` at offsets `start` and `start + nboutdur - 1` from each window and
keep `p` positionally where the probe passes. -/
def bm345_p (mask xt : List ℤ) (nb bm : ℕ) (bc : ℚ) : List ℕ :=
  let n := mask.length
  let rm := moving_mean (castZ xt) nb 1
  let p0 := (List.range rm.length).filter
    (fun i => if bm = 5 then bc ≤ rm.getD i 0 else bc < rm.getD i 0)
  if bm = 3 then p0
  else
    let st : ℤ := (((nb + 1) / 2 : ℕ) : ℤ) - 1 - (pyRoundHalf nb : ℕ)
    let keep := (p0.map (fun q => (Nat.cast q : ℤ) + st)).filter
      (fun t => 0 < t ∧ t < (n : ℤ) - (nb : ℤ) - 1)
    ((List.range keep.length).filter
      (fun j =>
        let t := (keep.getD j 0).toNat
        mask.getD t 0 = 1 ∧ mask.getD (t + nb - 1) 0 = 1)).map
      (fun j => p0.getD j 0)

/-- Epoch relabelling for boutmetrics 3, 4 and 5 (core.py lines 498-500,
526-528, 554-556): every epoch `w + gi` (0 ≤ gi < nboutdur) covered by a
surviving window `w` and lying strictly inside (0, size) is marked 2. -/
def bm345_marks (xt : List ℤ) (p : List ℕ) (nb : ℕ) : List ℤ :=
  (List.range nb).foldl
    (fun a gi => setIdxs a ((p.map (fun q => q + gi)).filter (fun j => 0 < j ∧ j < a.length)) 2) xt

/-- Time in bouts under boutmetrics 3, 4 and 5 (core.py lines 484-560):
epochs marked 2 are credited, everything else zeroed. -/
def bm345_time (mask : List ℤ) (wlen nb bm : ℕ) (bc : ℚ) : Except String ℚ :=
  (bm345_xt mask wlen nb bm).map (fun xt1 =>
    let p := bm345_p mask xt1 nb bm bc
    let xf := (bm345_marks xt1 p nb).map (fun t => if t = 2 then (1 : ℤ) else 0)
    (xf.sum : ℚ) * ((wlen : ℚ) / 60))

/-- Embedding of `get_activity_bouts` (core.py lines 392-562).  `nboutdur =
int(boutdur * (60 / wlen))` is exact natural division under the engine
invariant `wlen ∣ 60`.  A selector outside 1..5 leaves `time_in_bout` at 0,
as in the source.  Python would raise ZeroDivisionError for `wlen = 0`;
every theorem below assumes `0 < wlen`. -/
def get_activity_bouts (accm : List ℚ) (lower upper : ℚ) (wlen boutdur : ℕ)
    (boutcrit : ℚ) (closedbout : Bool) (boutmetric : ℕ) : Except String ℚ :=
  let nb := boutdur * 60 / wlen
  let mask := actMask accm lower upper
  if boutmetric = 1 then .ok (bm1_time mask nb boutcrit closedbout wlen)
  else if boutmetric = 2 then .ok (bm2_time mask nb boutcrit wlen)
  else if boutmetric = 3 ∨ boutmetric = 4 ∨ boutmetric = 5 then
    bm345_time mask wlen nb boutmetric boutcrit
  else .ok 0

/-- Square on float values (the `rval**2` of core.py line 595). -/
def fsq (a : FVal) : FVal :=
  a.map (fun x => x * x)

/-- Embedding of get_intensity_gradient (core.py lines 565-595), parametric
in the natural log (kept symbolic) and in the regression:
scipy.stats.linregress is an external library call, used here only through
its documented contract.  Bins with a zero minute count are excluded by the
`counts > 0` mask; the source has no further guard, so the filtered arrays
reach the regression unconditionally and its third output is squared. -/
def get_intensity_gradient (plog : ℚ → ℚ)
    (lregress : List ℚ → List ℚ → Except String (FVal × FVal × FVal))
    (ig_values counts : List ℚ) : Except String (FVal × FVal × FVal) :=
  let pairs := (List.zip ig_values counts).filter (fun q => 0 < q.2)
  let lx := pairs.map (fun q => plog (q.1 * 1000))
  let ly := pairs.map (fun q => plog q.2)
  (lregress lx ly).map (fun t => (t.1, t.2.1, fsq t.2.2))

/-- Cutpoint threshold triple of a Cutpoint Profile (spec section 3); the
metric callable of the profile is injected separately as a strategy. -/
structure Cutpoints where
  sedentary : ℚ
  light : ℚ
  moderate : ℚ
deriving DecidableEq

/-- Modelled from the spec: the registry _base_cutpoints
(skimu.activity.cutpoints, not under src/) maps profile names to profiles
(spec section 4.2).  Only the documented default profile is relevant to the
claims; its numeric thresholds play no role in any theorem below. -/
def base_cutpoints : List (String × Cutpoints) :=
  [("migueles_wrist_adult", ⟨1/20, 11/100, 11/25⟩)]

/-- Modelled from the spec (section 4.2): get_level_thresholds
(skimu.activity.cutpoints, not under src/) returns the half-open band
[lower, upper) of a level; MVPA maps to [light, inf), vigorous to
[moderate, inf), the others to adjacent threshold pairs.  The unbounded
ends are represented by sentinels beyond any metric value. -/
def get_level_thresholds (level : String) (c : Cutpoints) : ℚ × ℚ :=
  if level = "sed" then (-100000, c.sedentary)
  else if level = "light" then (c.sedentary, c.light)
  else if level = "mod" then (c.light, c.moderate)
  else if level = "vig" then (c.moderate, 100000)
  else (c.light, 100000)

/-- Cutpoints argument of the constructor: a profile name or a custom
profile dictionary (core.py lines 130-136). -/
inductive CutpointsArg
  | name (s : String)
  | custom (c : Cutpoints)

/-- Configuration state stored by MVPActivityClassification.__init__
(core.py lines 148-159). -/
structure Engine where
  wlen : ℤ
  blens : List ℤ
  boutcrit : ℚ
  boutmetric : ℕ
  closedbout : Bool
  min_wear : ℤ
  cutpoints : Cutpoints
  day_key : ℤ × ℤ

/-- Index of the first minimum (numpy argmin), for core.py line 121. -/
def npArgminNat (ds : List ℕ) : ℕ :=
  match ds.min? with
  | some m => ds.findIdx (fun d => d = m)
  | none => 0

/-- Embedding of MVPActivityClassification.__init__ (core.py lines
113-159).  The constructor normalises rather than validates: a short window
length that is not a factor of 60 is replaced (with a warning) by the
nearest entry of a fixed factor list, bout lengths and the minimum wear
time are truncated to integers, and an unrecognised cutpoints name falls
back to the default profile with a warning.  Python raises only for
short_wlen = 0, where `60 % short_wlen` is a ZeroDivisionError; the Python
modulo of a negative divisor is the floor-based Int.fmod. -/
def engineInit (short_wlen : ℤ) (bout_lens : List ℤ) (bout_criteria : ℚ)
    (bout_metric : ℕ) (closed_bout : Bool) (min_wear_time : ℤ)
    (cutpoints : CutpointsArg) (day_window : Option (ℤ × ℤ)) :
    Except String Engine :=
  if short_wlen = 0 then .error "ZeroDivisionError: integer modulo by zero"
  else
    let tmp : List ℤ := [1, 2, 3, 4, 5, 6, 10, 12, 15, 20, 30]
    let wlen :=
      if Int.fmod 60 short_wlen ≠ 0 then
        tmp.getD (npArgminNat (tmp.map (fun t => (t - short_wlen).natAbs))) 0
      else short_wlen
    let cp :=
      match cutpoints with
      | .name s =>
        (base_cutpoints.lookup s).getD
          ((base_cutpoints.lookup "migueles_wrist_adult").getD ⟨0, 0, 0⟩)
      | .custom c => c
    .ok
      { wlen := wlen, blens := bout_lens, boutcrit := bout_criteria,
        boutmetric := bout_metric, closedbout := closed_bout,
        min_wear := min_wear_time, cutpoints := cp,
        day_key := day_window.getD (-1, -1) }

/-- Membership of an index in one of the (start, stop) interval pairs. -/
def inIntervals (starts stops : List ℕ) (i : ℕ) : Bool :=
  (List.zip starts stops).any (fun q => decide (q.1 ≤ i) && decide (i < q.2))

/-- Modelled from the spec (section 6): get_day_index_intersection
(skimu.utility.internal, not under src/) takes interval sets with
inclusion/exclusion flags and a day span, and returns the maximal runs of
indices inside the day that lie in every included set and outside every
excluded set, as parallel (starts, stops) arrays with exclusive stops. -/
def get_day_index_intersection (sets : List (List ℕ × List ℕ × Bool))
    (day_start day_stop : ℕ) : List ℕ × List ℕ :=
  let valid : ℕ → Bool := fun i =>
    decide (day_start ≤ i) && decide (i < day_stop) &&
      sets.all (fun s => if s.2.2 then inIntervals s.1 s.2.1 i else !inIntervals s.1 s.2.1 i)
  let starts := (List.range day_stop).filter
    (fun i => valid i && (decide (i = day_start) || !valid (i - 1)))
  let stops := ((List.range day_stop).filter
    (fun i => valid i && (decide (i + 1 = day_stop) || !valid (i + 1)))).map (fun i => i + 1)
  (starts, stops)

/-- The sequence of acceleration slices handed to the configured metric
function by _get_activity_metrics_across_indexing (core.py lines 343-346):
one Python slice `accel[start:stop]` per pair of the zipped starts/stops
arguments. -/
def gamiMetricSlices (accel : List α) (starts stops : List ℕ) : List (List α) :=
  (List.zip starts stops).map (fun q => pySliceList accel q.1 q.2)

/-- The pair of index arrays that predict passes as the (starts, stops)
arguments of _get_activity_metrics_across_indexing for the whole-day "MM"
window of one day (core.py lines 245-270): the wear/day intersection is
computed, but the call at lines 264-265 passes day_wear_starts twice, and
the intersection stops are not used. -/
def predict_mm_indexing_args (wear_starts wear_stops : List ℕ)
    (day_start day_stop : ℕ) : List ℕ × List ℕ :=
  let inter := get_day_index_intersection [(wear_starts, wear_stops, true)] day_start day_stop
  (inter.1, inter.1)

/-- Keys of the per-day results dictionary: the plain string columns and
the tuple keys built by iter_product at core.py lines 219-228. -/
inductive ResKey
  | name (s : String)
  | bout (w lvl : String) (blen : ℤ) (tag : String)
  | epoch (w lvl gran tag : String)
  | ig (w a stat : String)
deriving DecidableEq

/-- Values stored in a results column: numpy object, int or float cells. -/
inductive ResVal
  | s (v : String)
  | i (v : ℤ)
  | f (v : FVal)
deriving DecidableEq

/-- The results dictionary: one array of per-day cells per key. -/
abbrev ResMap := List (ResKey × List ResVal)

/-- Printable name of a key, for the KeyError message. -/
def resKeyStr : ResKey → String
  | .name s => s
  | .bout w lvl blen tag => w ++ "," ++ lvl ++ "," ++ toString blen ++ "," ++ tag
  | .epoch w lvl gran tag => w ++ "," ++ lvl ++ "," ++ gran ++ "," ++ tag
  | .ig w a stat => w ++ "," ++ a ++ "," ++ stat

/-- Python dictionary write `res[k][i] = v`: fetching a missing key raises
KeyError before anything is assigned. -/
def dictWriteAt (res : ResMap) (k : ResKey) (i : ℕ) (v : ResVal) :
    Except String ResMap :=
  if (res.lookup k).isSome then
    .ok (res.map (fun q => if q.1 = k then (q.1, q.2.set i v) else q))
  else .error ("KeyError: " ++ resKeyStr k)

/-- Python accumulation `res[k][i] += q` on a float column: NaN-absorbing
float addition after a KeyError-raising lookup. -/
def dictAddFAt (res : ResMap) (k : ResKey) (i : ℕ) (q : ℚ) :
    Except String ResMap :=
  match res.lookup k with
  | some arr =>
    match arr.getD i (.f none) with
    | .f cur => dictWriteAt res k i (.f (fadd cur (some q)))
    | _ => .error "TypeError: unsupported operand"
  | none => .error ("KeyError: " ++ resKeyStr k)

/-- Truncation toward zero, as the Python int() builtin on a float. -/
def pyTrunc (q : ℚ) : ℤ :=
  if q < 0 then -(Rat.floor (-q)) else Rat.floor q

/-- Round-half-even rounding of a rational to the nearest integer, as numpy. -/
def roundHalfEven (q : ℚ) : ℤ :=
  let f := Rat.floor q
  let r := q - f
  if r < 1 / 2 then f
  else if 1 / 2 < r then f + 1
  else if f % 2 = 0 then f else f + 1

/-- The numpy around(x, 1): round-half-even at one decimal place. -/
def around1 (q : ℚ) : ℚ :=
  (roundHalfEven (10 * q) : ℚ) / 10

/-- Weekday names as produced by strftime with the %A directive. -/
def weekdayNames : List String :=
  ["Monday", "Tuesday", "Wednesday", "Thursday", "Friday", "Saturday", "Sunday"]

/-- Gregorian date (year, month, day) from days since the Unix epoch, the
standard civil-from-days algorithm, for datetime.utcfromtimestamp. -/
def civilFromDays (z0 : ℤ) : ℤ × ℕ × ℕ :=
  let z := z0 + 719468
  let era := Int.fdiv z 146097
  let doe := (z - era * 146097).toNat
  let yoe := (doe - doe / 1460 + doe / 36524 - doe / 146096) / 365
  let y : ℤ := (yoe : ℤ) + era * 400
  let doy := doe - (365 * yoe + yoe / 4 - yoe / 100)
  let mp := (5 * doy + 2) / 153
  let d := doy - (153 * mp + 2) / 5 + 1
  let m := if mp < 10 then mp + 3 else mp - 9
  (if m ≤ 2 then y + 1 else y, m, d)

/-- Zero-padded two-digit decimal, for strftime %m and %d. -/
def pad2 (n : ℕ) : String :=
  if n < 10 then "0" ++ toString n else toString n

/-- Date string in the %Y-%m-%d format of core.py line 35. -/
def fmtDate (y : ℤ) (m d : ℕ) : String :=
  toString y ++ "-" ++ pad2 m ++ "-" ++ pad2 d

/-- Embedding of _update_date_results (core.py lines 33-41): writes the
date string (of the first timestamp shifted by 5 seconds), the weekday
name, the 1-based day number, and then the rounded hour span of the day.
The fourth write targets the key "N hours", while predict declares the
column "N Hours" (line 220). -/
def update_date_results (results : ResMap) (timestamps : List ℚ)
    (day_n day_start_idx day_stop_idx : ℕ) : Except String ResMap := do
  let ts := timestamps.getD day_start_idx 0 + 5
  let days := Rat.floor (ts / 86400)
  let cd := civilFromDays days
  let r1 ← dictWriteAt results (.name "Date") day_n (.s (fmtDate cd.1 cd.2.1 cd.2.2))
  let r2 ← dictWriteAt r1 (.name "Weekday") day_n
    (.s (weekdayNames.getD ((Int.fmod (days + 3) 7).toNat) ""))
  let r3 ← dictWriteAt r2 (.name "Day N") day_n (.i ((day_n : ℤ) + 1))
  let nh := around1 ((timestamps.getD (day_stop_idx - 1) 0 - timestamps.getD day_start_idx 0) / 3600)
  dictWriteAt r3 (.name "N hours") day_n (.f (some nh))

/-- numpy histogram counts for explicit bin edges: each value is counted in
the half-open bin, except the rightmost bin which is closed, per the numpy
documentation; counts are returned as floats since the caller scales them. -/
def npHistogram (vals edges : List ℚ) : List ℚ :=
  (List.range (edges.length - 1)).map (fun i =>
    ((vals.filter (fun v =>
      decide (edges.getD i 0 ≤ v) &&
        (if i + 2 = edges.length then decide (v ≤ edges.getD (i + 1) 0)
         else decide (v < edges.getD (i + 1) 0)))).length : ℚ))

/-- Embedding of _get_activity_metrics_across_indexing (core.py lines
308-389), parametric in the injected metric function of the cutpoints
profile and in the regression model.  For each slice of the zipped
starts/stops pairs it accumulates the epoch MVPA totals, the per-level bout
minutes for every configured bout length, and the intensity histogram, then
reduces the histogram through get_intensity_gradient once. -/
def gami (metric : List α → ℤ → ℚ → List ℚ) (plog : ℚ → ℚ)
    (lregress : List ℚ → List ℚ → Except String (FVal × FVal × FVal))
    (cfg : Engine) (results : ResMap) (wtype : String) (accel : List α)
    (fs : ℚ) (day_n : ℕ) (starts stops : List ℕ) (n_wlen : ℤ)
    (epoch_per_min : ℕ) (ig_levels ig_vals : List ℚ) : Except String ResMap := do
  let step : ResMap × List ℚ → List α → Except String (ResMap × List ℚ) := fun st sl => do
    let acc_metric := metric sl n_wlen fs
    let r1 ← dictAddFAt st.1 (.epoch wtype "MVPA" (toString cfg.wlen ++ "sec") "epoch") day_n
      (((acc_metric.filter (fun v => cfg.cutpoints.light ≤ v)).length : ℚ) / (epoch_per_min : ℚ))
    let tmp1 := moving_mean acc_metric epoch_per_min epoch_per_min
    let r2 ← dictAddFAt r1 (.epoch wtype "MVPA" "1min" "epoch") day_n
      (((tmp1.filter (fun v => cfg.cutpoints.light ≤ v)).length : ℚ))
    let tmp5 := moving_mean acc_metric (5 * epoch_per_min) (5 * epoch_per_min)
    let r3 ← dictAddFAt r2 (.epoch wtype "MVPA" "5min" "epoch") day_n
      (((tmp5.filter (fun v => cfg.cutpoints.light ≤ v)).length : ℚ) * 5)
    let r4 ← cfg.blens.foldlM (fun r bl =>
      ["MVPA", "sed", "light", "mod", "vig"].foldlM (fun r2 lvl => do
        let th := get_level_thresholds lvl cfg.cutpoints
        let bt ← get_activity_bouts acc_metric th.1 th.2 cfg.wlen.toNat bl.toNat
          cfg.boutcrit cfg.closedbout cfg.boutmetric
        dictAddFAt r2 (.bout wtype lvl bl "bout") day_n bt) r) r3
    pure (r4, List.zipWith (fun a b => a + b) st.2 (npHistogram acc_metric ig_levels))
  let st ← (gamiMetricSlices accel starts stops).foldlM step
    (results, List.replicate (ig_levels.length - 1) 0)
  let hist := st.2.map (fun c => c * ((cfg.wlen : ℚ) / 60))
  let ig ← get_intensity_gradient plog lregress ig_vals hist
  let r5 ← dictWriteAt st.1 (.ig wtype "IG" "gradient") day_n (.f ig.1)
  let r6 ← dictWriteAt r5 (.ig wtype "IG" "intercept") day_n (.f ig.2.1)
  dictWriteAt r6 (.ig wtype "IG" "R-squared") day_n (.f ig.2.2)

/-- Embedding of _check_if_none (core.py lines 21-30). -/
def check_if_none (var : Option (List (ℕ × ℕ))) (i1 i2 : Option ℕ) :
    Option (List ℕ) × Option (List ℕ) :=
  match var with
  | none =>
    match i1, i2 with
    | some a, some b => (some [a], some [b])
    | _, _ => (none, none)
  | some l => (some (l.map Prod.fst), some (l.map Prod.snd))

/-- The per-day results dictionary as initialised by predict (core.py lines
219-234): empty strings for the text columns, -1 for the integer columns and
the NaN sentinel for every metric column. -/
def initDayResults (cfg : Engine) (ndays : ℕ) : ResMap :=
  (["Date", "Weekday"].map (fun s => (ResKey.name s, List.replicate ndays (ResVal.s ""))))
    ++ (["Day N", "N Hours", "N wear hours", "N wear awake hours"].map
      (fun s => (ResKey.name s, List.replicate ndays (ResVal.i (-1)))))
    ++ (["MM", "ExS"].flatMap (fun w =>
      [toString cfg.wlen ++ "sec", "1min", "5min"].map (fun g =>
        (ResKey.epoch w "MVPA" g "epoch", List.replicate ndays (ResVal.f none)))))
    ++ (["MM", "ExS"].flatMap (fun w =>
      ["MVPA", "sed", "light", "mod", "vig"].flatMap (fun lvl =>
        cfg.blens.map (fun b =>
          (ResKey.bout w lvl b "bout", List.replicate ndays (ResVal.f none))))))
    ++ (["MM", "ExS"].flatMap (fun w =>
      ["gradient", "intercept", "R-squared"].map (fun s =>
        (ResKey.ig w "IG" s, List.replicate ndays (ResVal.f none)))))

/-- Embedding of MVPActivityClassification.predict (core.py lines 161-306),
parametric in the injected metric and regression model.  The day loop first
updates the date columns, intersects wear with the day, stores the wear
hours (truncated into the integer column), applies the minimum-wear gate,
and then computes the endpoints for the MM window — passing the
predict_mm_indexing_args pair, whose two components are both the
intersection starts — and, when sleep data exists, for the ExS window with
the same starts-for-stops wiring (lines 293-294). -/
def predict (metric : List α → ℤ → ℚ → List ℚ) (plog : ℚ → ℚ)
    (lregress : List ℚ → List ℚ → Except String (FVal × FVal × FVal))
    (cfg : Engine) (time : List ℚ) (accel : List α) (fs : Option ℚ)
    (wear : Option (List (ℕ × ℕ))) (days : Option (List (ℕ × ℕ)))
    (sleep : Option (List (ℕ × ℕ))) : Except String ResMap := do
  let fsv ← match fs with
    | some v => pure v
    | none =>
      let diffs := (List.zip (time.take 5000) ((time.take 5000).drop 1)).map
        (fun q => q.2 - q.1)
      if diffs.length = 0 then
        Except.error "ValueError: cannot convert float NaN to integer"
      else pure (1 / (diffs.sum / (diffs.length : ℚ)))
  let nwlen : ℤ := pyTrunc ((cfg.wlen : ℚ) * fsv)
  let epm : ℕ := (pyTrunc (60 / (cfg.wlen : ℚ))).toNat
  let iglevels := ((List.range 161).map (fun i => ((25 * i : ℕ) : ℚ) / 1000)) ++ [8]
  let igvals := List.zipWith (fun a b => (a + b) / 2) (iglevels.drop 1)
    (iglevels.take (iglevels.length - 1))
  let wcheck := check_if_none wear (some 0) (some time.length)
  let wear_starts := wcheck.1.getD []
  let wear_stops := wcheck.2.getD []
  let daysList := days.getD [(0, time.length)]
  let scheck := check_if_none sleep none none
  let res0 := initDayResults cfg daysList.length
  ((List.range daysList.length).zip daysList).foldlM (fun res it => do
    let iday := it.1
    let day_start := it.2.1
    let day_stop := it.2.2
    let r1 ← update_date_results res time iday day_start day_stop
    let inter := get_day_index_intersection [(wear_starts, wear_stops, true)] day_start day_stop
    let wearHours := around1
      (((List.zipWith (fun b a => (b : ℤ) - (a : ℤ)) inter.2 inter.1).sum : ℚ) / fsv / 3600)
    let r2 ← dictWriteAt r1 (.name "N wear hours") iday (.i (pyTrunc wearHours))
    if (pyTrunc wearHours : ℚ) < (cfg.min_wear : ℚ) then pure r2
    else do
      let args := predict_mm_indexing_args wear_starts wear_stops day_start day_stop
      let r3 ← gami metric plog lregress cfg r2 "MM" accel fsv iday args.1 args.2
        nwlen epm iglevels igvals
      match scheck.1, scheck.2 with
      | some sst, some ssp => do
        let inter2 := get_day_index_intersection
          [(wear_starts, wear_stops, true), (sst, ssp, false)] day_start day_stop
        let awakeHours := around1
          (((List.zipWith (fun b a => (b : ℤ) - (a : ℤ)) inter2.2 inter2.1).sum : ℚ) / fsv / 3600)
        let r4 ← dictWriteAt r3 (.name "N wear awake hours") iday (.i (pyTrunc awakeHours))
        gami metric plog lregress cfg r4 "ExS" accel fsv iday inter2.1 inter2.1
          nwlen epm iglevels igvals
      | _, _ => pure r3) res0

attribute [local semireducible] Rat.add Rat.mul Rat.inv Rat.sub Rat.ofScientific

/-! ## Concrete instances used by the claims -/

/-- Engine configuration with the documented defaults (short_wlen 5,
bout_lens (1,5,10), bout_criteria 0.8, bout_metric 4, min_wear_time 10,
migueles_wrist_adult thresholds), as stored by the constructor. -/
def defaultEngine : Engine :=
  { wlen := 5, blens := [1, 5, 10], boutcrit := 4 / 5, boutmetric := 4,
    closedbout := false, min_wear := 10, cutpoints := ⟨1 / 20, 11 / 100, 11 / 25⟩,
    day_key := (0, 24) }

/-- A regression model satisfying the documented scipy.stats.linregress
contract on empty inputs: it raises ValueError. -/
def modelLregress : List ℚ → List ℚ → Except String (FVal × FVal × FVal) :=
  fun lx _ =>
    if lx.isEmpty then .error "ValueError: Inputs must not be empty."
    else .ok (none, none, none)

/-- Epoch series built from a 0/1 pattern: in-band epochs carry the value
3/2 against the band [1, 2). -/
def serBits (bits : List ℕ) : List ℚ :=
  bits.map (fun b => if b = 1 then (3 : ℚ) / 2 else 0)

/-! ## C1 -/

/-- C1: the spec claims predict applies the metric to accel[start:stop] for
each valid interval of the wear/day intersection, the stop coming from the
intersection stops.  In the code the call at core.py lines 264-265 passes
day_wear_starts for both arguments, so with wear interval (0, 100) over the
day (0, 100) the intersection is ([0], [100]) but the argument pair is
([0], [0]), and the metric receives the empty slice accel[0:0] instead of
accel[0:100]. -/
theorem c1_predict_metric_slice_bug :
    predict_mm_indexing_args [0] [100] 0 100 = ([0], [0]) ∧
    get_day_index_intersection [([0], [100], true)] 0 100 = ([0], [100]) ∧
    gamiMetricSlices (List.range 100) [0] [0] = [[]] ∧
    gamiMetricSlices (List.range 100) [0] [100] = [List.range 100] :=
  ⟨rfl, rfl, rfl, rfl⟩

/-! ## C2 -/

/-- C2: the spec claims a day below the wear minimum is skipped with NaN
placeholders while all other days are processed.  On a two-day recording
whose second day has no wear overlap, predict instead raises
KeyError: N hours while processing the first day — _update_date_results
writes the key "N hours" (core.py line 38) but the table declares
"N Hours" (line 220) — so no day produces any results, whatever metric and
regression strategies are injected. -/
theorem c2_predict_low_wear_day_keyerror
    (metric : List ℚ → ℤ → ℚ → List ℚ) (plog : ℚ → ℚ)
    (lregress : List ℚ → List ℚ → Except String (FVal × FVal × FVal)) :
    predict metric plog lregress defaultEngine
      [0, 3600, 7200, 10800, 86400, 90000, 93600, 97200] ([] : List ℚ) (some 1)
      (some [(0, 4)]) (some [(0, 4), (4, 8)]) none
      = .error "KeyError: N hours" :=
  rfl

/-! ## C9 -/

/-- C9: the spec claims the loop populates the row under the declared
column names Date, Weekday, Day N and N Hours without raising.  The
declared integer column is "N Hours" (core.py line 220), but
_update_date_results writes "N hours" (line 38): on any day the fourth
write raises KeyError, so the N Hours column is never populated. -/
theorem c9_update_date_results_keyerror :
    update_date_results (initDayResults defaultEngine 1) [0, 3600] 0 0 2
      = .error "KeyError: N hours" :=
  rfl

/-! ## C3 -/

/-- C3: the spec claims get_intensity_gradient returns NaN for all three
outputs through an explicit soft-failure path whenever fewer than 2 bins
have a non-zero count, and does not raise.  The source (core.py lines
590-595) has no such path: the zero-count bins are excluded and the
filtered arrays reach the regression unconditionally, so with no positive
bin the arrays are empty, and any regression model following the
documented scipy.stats.linregress contract — ValueError on empty inputs —
makes the function raise instead. -/
theorem c3_intensity_gradient_raises_on_all_zero_counts
    (plog : ℚ → ℚ)
    (lregress : List ℚ → List ℚ → Except String (FVal × FVal × FVal))
    (msg : String) (hl : lregress [] [] = .error msg)
    (ig_values : List ℚ) (n : ℕ) :
    get_intensity_gradient plog lregress ig_values (List.replicate n 0)
      = .error msg := by
  have hfilter :
      (List.zip ig_values (List.replicate n (0 : ℚ))).filter (fun q => 0 < q.2) = [] := by
    rw [List.filter_eq_nil_iff]
    intro a ha
    have h2 := (List.of_mem_zip ha).2
    have h0 : a.2 = 0 := List.eq_of_mem_replicate h2
    simp [h0]
  simp [get_intensity_gradient, hfilter, hl, Except.map]

/-- Witness for C3 at a concrete input: 161 all-zero bin counts (a day
whose valid interval set is empty) and the modelled scipy behaviour. -/
theorem c3_witness :
    modelLregress [] [] = .error "ValueError: Inputs must not be empty." ∧
    get_intensity_gradient id modelLregress [1, 2, 3] (List.replicate 3 0)
      = .error "ValueError: Inputs must not be empty." :=
  ⟨rfl, c3_intensity_gradient_raises_on_all_zero_counts id modelLregress _ rfl [1, 2, 3] 3⟩

/-! ## C4 -/

/-- C4 counterexample: the claim promises 0 without raising for every
selector on a series with no epoch in the threshold band.  For selector 3
with a 30-second epoch (N = 60/wlen = 2) the slice
lookforbreaks[N // 2 : -N // 2 + 1] is empty while moving_mean returns 2
values, and the numpy assignment raises ValueError on the series [0,0,0]
against the band [1, 2). -/
theorem c4_counterexample :
    get_activity_bouts [0, 0, 0] 1 2 30 1 (4 / 5) false 3
      = .error "ValueError: could not broadcast input array into slice" :=
  rfl

/-! ## C5 -/

/-- C5 counterexample: the claim promises the full series duration for an
all-in-band series for every selector at every boutcrit in (0, 1].  It
fails for selector 1 at boutcrit = 1 (the window test is strict, crediting
0 instead of 4*20/60) and for selectors 3, 4, 5 at boutcrit = 1/2 on an
8-epoch all-in-band series (boundary epochs are penalised by the
1-minute break detector and epoch 0 is never relabelled), crediting
2, 5/3 and 4/3 minutes instead of 8*20/60 = 8/3. -/
theorem c5_counterexample :
    (get_activity_bouts (serBits [1, 1, 1, 1]) 1 2 20 1 1 false 1 = .ok 0 ∧
      (0 : ℚ) ≠ 4 * 20 / 60) ∧
    (get_activity_bouts (serBits (List.replicate 8 1)) 1 2 20 1 (1 / 2) false 3 = .ok 2 ∧
      (2 : ℚ) ≠ 8 * 20 / 60) ∧
    (get_activity_bouts (serBits (List.replicate 8 1)) 1 2 20 1 (1 / 2) false 4 = .ok (5 / 3) ∧
      (5 / 3 : ℚ) ≠ 8 * 20 / 60) ∧
    (get_activity_bouts (serBits (List.replicate 8 1)) 1 2 20 1 (1 / 2) false 5 = .ok (4 / 3) ∧
      (4 / 3 : ℚ) ≠ 8 * 20 / 60) :=
  ⟨⟨by decide, by norm_num⟩, ⟨by decide, by norm_num⟩,
    ⟨by decide, by norm_num⟩, ⟨by decide, by norm_num⟩⟩

/-! ## C6 -/

/-- C6 counterexample: for each selector in 2..5 there is a series on which
the minutes credited for bout duration 2 strictly exceed those credited
for duration 1 (thresholds, epoch length 20 s and criterion held fixed),
refuting monotonicity in the bout duration for every selector the claim
covers. -/
theorem c6_counterexample :
    (get_activity_bouts (serBits [1, 0, 0, 0]) 1 2 20 1 (4 / 5) false 2 = .ok 0 ∧
      get_activity_bouts (serBits [1, 0, 0, 0]) 1 2 20 2 (4 / 5) false 2 = .ok (1 / 3) ∧
      (0 : ℚ) < 1 / 3) ∧
    (get_activity_bouts (serBits [0, 0, 1, 0, 1, 1, 1, 0]) 1 2 20 1 (1 / 2) false 3 = .ok (5 / 3) ∧
      get_activity_bouts (serBits [0, 0, 1, 0, 1, 1, 1, 0]) 1 2 20 2 (1 / 2) false 3 = .ok 2 ∧
      (5 / 3 : ℚ) < 2) ∧
    (get_activity_bouts (serBits [0, 1, 0, 0, 1, 1, 1, 1, 0]) 1 2 20 1 (1 / 2) false 4 = .ok 1 ∧
      get_activity_bouts (serBits [0, 1, 0, 0, 1, 1, 1, 1, 0]) 1 2 20 2 (1 / 2) false 4 = .ok 2 ∧
      (1 : ℚ) < 2) ∧
    (get_activity_bouts (serBits [0, 1, 0, 0, 0, 1, 1, 1, 0, 0]) 1 2 20 1 (1 / 2) false 5 = .ok 0 ∧
      get_activity_bouts (serBits [0, 1, 0, 0, 0, 1, 1, 1, 0, 0]) 1 2 20 2 (1 / 2) false 5 = .ok 2 ∧
      (0 : ℚ) < 2) :=
  ⟨⟨by decide, by decide, by norm_num⟩,
    ⟨by decide, by decide, by norm_num⟩,
    ⟨by decide, by decide, by norm_num⟩,
    ⟨by decide, by decide, by norm_num⟩⟩

/-! ## C8 -/

/-- C8 counterexample: constructing the engine with a negative short window
length (-5, which divides 60 under the Python modulo, so it is kept) and a
custom threshold band whose lower threshold 1 exceeds its upper threshold
1/2 completes without raising and stores the malformed configuration
verbatim — the constructor does not fail fatally. -/
theorem c8_counterexample :
    engineInit (-5) [1, 5, 10] (4 / 5) 4 false 10 (.custom ⟨1, 1 / 2, 2⟩) (some (0, 24))
      = .ok
        { wlen := -5, blens := [1, 5, 10], boutcrit := 4 / 5, boutmetric := 4,
          closedbout := false, min_wear := 10, cutpoints := ⟨1, 1 / 2, 2⟩,
          day_key := (0, 24) } :=
  rfl

/-- C8 amended: the constructor never raises except for a short window
length of exactly 0, where the factor-of-60 check divides by zero; every
other configuration, malformed or not, is accepted. -/
theorem c8_amended (swl : ℤ) (bl : List ℤ) (bc : ℚ) (bm : ℕ) (cb : Bool)
    (mw : ℤ) (cp : CutpointsArg) (dw : Option (ℤ × ℤ)) (h : swl ≠ 0) :
    (engineInit swl bl bc bm cb mw cp dw).isOk = true := by
  simp [engineInit, h, Except.isOk, Except.toBool]

/-- Witness for the amended C8 at the malformed concrete configuration. -/
theorem c8_amended_witness :
    ((-5 : ℤ) ≠ 0) ∧
    (engineInit (-5) [1, 5, 10] (4 / 5) 4 false 10 (.custom ⟨1, 1 / 2, 2⟩)
      (some (0, 24))).isOk = true :=
  ⟨by decide, c8_amended (-5) [1, 5, 10] (4 / 5) 4 false 10 (.custom ⟨1, 1 / 2, 2⟩)
    (some (0, 24)) (by decide)⟩

/-! ## C7 -/

/-- C7 counterexample: on accm = [0,0,3/2,0,3/2,3/2,0] against the band
[1, 2) with 20-second epochs (nboutdur 3) and criterion 1/2, the probe
offset of boutmetric 4 is start = -1, so the surviving window list is [3]
although the mask at epoch 3 is 0 — the first epoch of the window is not in
band — and the credited epoch 5 is covered by no criterion-passing window
whose own first and last epochs are in band (the only such window is 2,
covering epochs 2..4). -/
theorem c7_counterexample :
    bm345_xt (actMask (serBits [0, 0, 1, 0, 1, 1, 0]) 1 2) 20 3 4
      = .ok [-9, 0, 1, 0, 1, 1, -9] ∧
    bm345_p (actMask (serBits [0, 0, 1, 0, 1, 1, 0]) 1 2) [-9, 0, 1, 0, 1, 1, -9] 3 4 (1 / 2)
      = [3] ∧
    (actMask (serBits [0, 0, 1, 0, 1, 1, 0]) 1 2).getD 3 0 = 0 ∧
    ((bm345_marks [-9, 0, 1, 0, 1, 1, -9] [3] 3).map
      (fun t => if t = 2 then (1 : ℤ) else 0)).getD 5 0 = 1 ∧
    ((List.range (moving_mean (castZ [-9, 0, 1, 0, 1, 1, -9]) 3 1).length).filter
      (fun w =>
        decide ((1 : ℚ) / 2 < (moving_mean (castZ [-9, 0, 1, 0, 1, 1, -9]) 3 1).getD w 0) &&
        decide ((actMask (serBits [0, 0, 1, 0, 1, 1, 0]) 1 2).getD w 0 = 1) &&
        decide ((actMask (serBits [0, 0, 1, 0, 1, 1, 0]) 1 2).getD (w + 3 - 1) 0 = 1))).all
      (fun w => !(decide (w ≤ 5) && decide (5 < w + 3))) = true ∧
    get_activity_bouts (serBits [0, 0, 1, 0, 1, 1, 0]) 1 2 20 1 (1 / 2) false 4 = .ok 1 := by
  refine ⟨by decide, by decide, by decide, by decide, by decide, by decide⟩

/-! ## Helper lemmas for the general theorems -/

theorem hb_getD_replicate {α} (n i : ℕ) (c d : α) :
    (List.replicate n c).getD i d = if i < n then c else d := by
  simp only [List.getD_eq_getElem?_getD, List.getElem?_replicate]
  split <;> simp

theorem hb_foldl_fixed {β γ} (f : β → γ → β) (h : ∀ a b, f a b = a) :
    ∀ (l : List γ) (init : β), l.foldl f init = init := by
  intro l
  induction l with
  | nil => intro init; rfl
  | cons x xs ih => intro init; rw [List.foldl_cons, h]; exact ih init

theorem hb_zip_replicate {α β} (n : ℕ) (a : α) (b : β) :
    List.zip (List.replicate n a) (List.replicate n b) = List.replicate n (a, b) := by
  induction n with
  | zero => rfl
  | succ m ih => simp [List.replicate_succ, ih]

theorem hb_actMask_offband (l u : ℚ) :
    ∀ accm : List ℚ, (∀ a ∈ accm, ¬(l ≤ a ∧ a < u)) →
      actMask accm l u = List.replicate accm.length 0
  | [], _ => rfl
  | a :: as, h => by
    have ht := hb_actMask_offband l u as (fun b hb => h b (List.mem_cons_of_mem a hb))
    simp only [actMask, List.map_cons, List.length_cons, List.replicate_succ] at ht ⊢
    rw [if_neg (h a (List.mem_cons_self a as))]
    rw [ht]

theorem hb_nonzeroIdx_replicate_zero (n : ℕ) :
    nonzeroIdx (List.replicate n 0) = [] := by
  unfold nonzeroIdx
  rw [List.filter_eq_nil_iff]
  intro i _
  simp [hb_getD_replicate]

theorem hb_moving_mean_short (x : List ℚ) (w s : ℕ) (h : x.length < w) :
    moving_mean x w s = [] := by
  unfold moving_mean
  rw [if_pos (Or.inr (Or.inr h))]

theorem hb_moving_mean_replicate (n w s : ℕ) (c : ℚ) (hw : 0 < w) (hs : 0 < s)
    (hnw : w ≤ n) :
    moving_mean (List.replicate n c) w s = List.replicate ((n - w) / s + 1) c := by
  unfold moving_mean
  rw [List.length_replicate, if_neg (by omega)]
  apply List.eq_replicate_iff.mpr
  refine ⟨by simp, ?_⟩
  intro q hq
  simp only [List.mem_map, List.mem_range] at hq
  obtain ⟨i, hi, rfl⟩ := hq
  have hfit : w ≤ n - i * s := by
    have h1 : i ≤ (n - w) / s := by omega
    have h2 : i * s ≤ (n - w) / s * s := Nat.mul_le_mul_right s h1
    have h3 : (n - w) / s * s ≤ n - w := Nat.div_mul_le_self _ _
    omega
  rw [List.drop_replicate, List.take_replicate, min_eq_left hfit,
    List.sum_replicate, nsmul_eq_mul]
  field_simp

theorem hb_castZ_replicate (n : ℕ) (c : ℤ) :
    castZ (List.replicate n c) = List.replicate n (c : ℚ) := by
  unfold castZ
  rw [List.map_replicate]

theorem hb_pyBound_le (i : ℤ) (n : ℕ) : pyBound i n ≤ n := by
  unfold pyBound
  split <;> omega

theorem hb_npSetSlice_zeros (n K : ℕ) (a b : ℤ)
    (hK : K = pyBound b n - pyBound a n) :
    npSetSlice (List.replicate n (0 : ℚ)) a b (List.replicate K 0)
      = .ok (List.replicate n 0) := by
  unfold npSetSlice
  simp only [List.length_replicate]
  rw [if_pos hK]
  have h1 := hb_pyBound_le a n
  have h2 := hb_pyBound_le b n
  rw [List.take_replicate, List.drop_replicate, ← List.replicate_add, ← List.replicate_add]
  congr 2
  omega

theorem hb_pyBound_zero (i : ℤ) : pyBound i 0 = 0 :=
  Nat.le_zero.mp (hb_pyBound_le i 0)

theorem hb_bm3_len (n N : ℕ) (hN : 3 ≤ N ∨ n < N) (hN1 : 1 ≤ N) :
    (if n < N then 0 else n - N + 1)
      = pyBound (1 - (((N + 1) / 2 : ℕ) : ℤ)) n - pyBound ((N / 2 : ℕ) : ℤ) n := by
  unfold pyBound
  split_ifs <;> omega

theorem hb_bm3_L (n N : ℕ) (hN2 : N ≤ 2) (hN1 : 1 ≤ N) :
    pyBound (1 - (((N + 1) / 2 : ℕ) : ℤ)) n - pyBound ((N / 2 : ℕ) : ℤ) n = 0 := by
  unfold pyBound
  split_ifs <;> omega

theorem hb_npSetSlice_zeros_bcast (n : ℕ) (a b : ℤ)
    (hle : pyBound b n ≤ pyBound a n) :
    npSetSlice (List.replicate n (0 : ℚ)) a b [0] = .ok (List.replicate n 0) := by
  have h1 := hb_pyBound_le a n
  unfold npSetSlice
  simp only [List.length_replicate]
  rw [Nat.sub_eq_zero_of_le hle, if_neg (by simp), Nat.add_zero]
  show Except.ok ((List.replicate n (0 : ℚ)).take (pyBound a n)
      ++ List.replicate 0 (0 : ℚ)
      ++ (List.replicate n (0 : ℚ)).drop (pyBound a n)) = Except.ok (List.replicate n 0)
  rw [List.replicate_zero, List.append_nil, List.take_replicate, List.drop_replicate,
    ← List.replicate_add]
  congr 2
  omega

theorem hb_npSetSlice_err (arr vals : List ℚ) (a b : ℤ) (h2 : 2 ≤ vals.length)
    (hne : vals.length ≠ pyBound b arr.length - pyBound a arr.length) :
    npSetSlice arr a b vals
      = .error "ValueError: could not broadcast input array into slice" := by
  rcases vals with _ | ⟨v1, _ | ⟨v2, vs⟩⟩
  · simp at h2
  · simp at h2
  · simp only [npSetSlice]
    rw [if_neg hne]

theorem hb_moving_mean_length (x : List ℚ) (w s : ℕ) (hw : 0 < w) (hs : 0 < s)
    (hx : w ≤ x.length) :
    (moving_mean x w s).length = (x.length - w) / s + 1 := by
  unfold moving_mean
  rw [if_neg (by omega), List.length_map, List.length_range]

theorem hb_bm4_len (n N : ℕ) (hN1 : 1 ≤ N) :
    (if n < N then 0 else n - N + 1)
      = pyBound (ceilHalf (2 * (n : ℤ) - (N : ℤ))) n
        - pyBound ((((N + 1) / 2 : ℕ) : ℤ) - 1) n := by
  unfold pyBound ceilHalf
  split_ifs <;> omega

theorem hb_bm5_len (n N : ℕ) (hN1 : 1 ≤ N) :
    (if n < N + 1 then 0 else n - N)
      = pyBound (ceilHalf (2 * (n : ℤ) - (N : ℤ)) - 1) n
        - pyBound ((((N + 1) / 2 : ℕ) : ℤ) - 1) n := by
  unfold pyBound ceilHalf
  split_ifs <;> omega

theorem hb_penal_zeros (n : ℕ) (pen : ℤ) :
    (List.zip (List.replicate n (0 : ℚ)) (List.replicate n (0 : ℤ))).map
      (fun q => if q.1 = 0 then pen else q.2) = List.replicate n pen := by
  rw [hb_zip_replicate, List.map_replicate]
  simp

theorem hb_bm345_xt_zeros (n wlen nb bm : ℕ) (hwl : 0 < wlen) (hdvd : wlen ∣ 60)
    (hbm : bm = 4 ∨ bm = 5 ∨ (bm = 3 ∧ (3 ≤ 60 / wlen ∨ n ≤ 60 / wlen))) :
    bm345_xt (List.replicate n 0) wlen nb bm
      = .ok (List.replicate n (-(((60 * nb) / wlen : ℕ) : ℤ))) := by
  have hN1 : 1 ≤ 60 / wlen :=
    (Nat.one_le_div_iff hwl).mpr (Nat.le_of_dvd (by norm_num) hdvd)
  have hmm : ∀ W : ℕ, 1 ≤ W → moving_mean (castZ (List.replicate n 0)) W 1
      = List.replicate (if n < W then 0 else n - W + 1) 0 := by
    intro W hW
    rw [hb_castZ_replicate]
    by_cases hn : n < W
    · rw [hb_moving_mean_short _ _ _ (by simpa using hn), if_pos hn]
      rfl
    · rw [hb_moving_mean_replicate _ _ _ _ (by omega) one_pos (by omega), if_neg hn]
      norm_num
  simp only [bm345_xt, List.length_replicate]
  rcases hbm with h | h | ⟨h, hN⟩ <;> subst h
  · have h3 : ¬((4 : ℕ) = 3) := by norm_num
    have h5 : ¬((4 : ℕ) = 5) := by norm_num
    rw [if_neg h3, if_neg h3, if_neg h5, if_neg h5, sub_zero, hmm _ hN1,
      hb_npSetSlice_zeros _ _ _ _ (by rw [← hb_bm4_len n (60 / wlen) hN1])]
    simp only [Except.map, Int.cast_zero, hb_penal_zeros]
  · have h3 : ¬((5 : ℕ) = 3) := by norm_num
    rw [if_neg h3, if_neg h3, if_pos rfl, if_pos rfl, hmm _ (by omega),
      hb_npSetSlice_zeros _ _ _ _
        (by rw [← hb_bm5_len n (60 / wlen) hN1]; split <;> omega)]
    simp only [Except.map, Int.cast_zero, hb_penal_zeros]
  · have h5 : ¬((3 : ℕ) = 5) := by norm_num
    rw [if_pos rfl, if_pos rfl, if_neg h5, hmm _ hN1]
    by_cases hcase : 3 ≤ 60 / wlen ∨ n < 60 / wlen
    · rw [hb_npSetSlice_zeros _ _ _ _ (by rw [← hb_bm3_len n (60 / wlen) hcase hN1])]
      simp only [Except.map, Int.cast_zero, hb_penal_zeros]
    · rw [not_or] at hcase
      obtain ⟨hc1, hc2⟩ := hcase
      have hc3 : 60 / wlen ≤ 2 := by omega
      have hc4 : n = 60 / wlen := by
        rcases hN with h | h
        · omega
        · omega
      have hone : (if n < 60 / wlen then 0 else n - 60 / wlen + 1) = 1 := by
        rw [if_neg (by omega)]
        omega
      rw [hone, List.replicate_one,
        hb_npSetSlice_zeros_bcast _ _ _ (Nat.le_of_sub_eq_zero
          (hb_bm3_L n (60 / wlen) hc3 hN1))]
      simp only [Except.map, Int.cast_zero, hb_penal_zeros]

theorem hb_bm345_marks_nil (xt : List ℤ) (nb : ℕ) : bm345_marks xt [] nb = xt := by
  unfold bm345_marks
  apply hb_foldl_fixed
  intro a gi
  simp [setIdxs]

theorem hb_bm345_p_pen (mask : List ℤ) (n nb bm : ℕ) (bc : ℚ) (hbc : 0 < bc) (k : ℕ) :
    bm345_p mask (List.replicate n (-(k : ℤ))) nb bm bc = [] := by
  have hrm : ∀ i, (moving_mean (castZ (List.replicate n (-(k : ℤ)))) nb 1).getD i 0 ≤ 0 := by
    intro i
    rw [hb_castZ_replicate]
    by_cases hnb : nb = 0
    · subst hnb
      simp [moving_mean]
    by_cases hn : n < nb
    · rw [hb_moving_mean_short _ _ _ (by simpa using hn)]
      simp
    · rw [hb_moving_mean_replicate _ _ _ _ (by omega) one_pos (by omega),
        hb_getD_replicate]
      split
      · exact Int.cast_nonpos.mpr (by omega)
      · exact le_refl 0
  have hp0 : (List.range (moving_mean (castZ (List.replicate n (-(k : ℤ)))) nb 1).length).filter
      (fun i => if bm = 5
        then decide (bc ≤ (moving_mean (castZ (List.replicate n (-(k : ℤ)))) nb 1).getD i 0)
        else decide (bc < (moving_mean (castZ (List.replicate n (-(k : ℤ)))) nb 1).getD i 0))
      = [] := by
    rw [List.filter_eq_nil_iff]
    intro i _
    have h := hrm i
    rw [List.getD_eq_getElem?_getD] at h
    split <;> simp <;> linarith
  simp only [bm345_p]
  rw [hp0]
  split <;> simp

/-- Core fact behind several claims: on a series with no epoch in the
threshold band (in particular the empty series), get_activity_bouts
returns 0 without raising, for selectors 1, 2, 4, 5 and for selector 3 when
60 / wlen is at least 3 or the series has at most 60 / wlen epochs (the
1-minute moving mean then has length at most 1 and broadcasts into the
empty break slice without error). -/
theorem hb_offband_zero (accm : List ℚ) (l u : ℚ) (wlen bd : ℕ) (bc : ℚ) (cb : Bool)
    (bm : ℕ) (hwl : 0 < wlen) (hdvd : wlen ∣ 60) (hbc : 0 < bc)
    (hoff : ∀ a ∈ accm, ¬(l ≤ a ∧ a < u))
    (hbm : bm = 1 ∨ bm = 2 ∨ bm = 4 ∨ bm = 5
      ∨ (bm = 3 ∧ (3 ≤ 60 / wlen ∨ accm.length ≤ 60 / wlen))) :
    get_activity_bouts accm l u wlen bd bc cb bm = .ok 0 := by
  have hmask := hb_actMask_offband l u accm hoff
  have hfin : ∀ k : ℕ, ((List.replicate accm.length (-(k : ℤ))).map
      (fun t => if t = 2 then (1 : ℤ) else 0)).sum = 0 := by
    intro k
    rw [List.map_replicate, if_neg (by omega), List.sum_replicate]
    simp
  unfold get_activity_bouts
  rw [hmask]
  rcases hbm with h | h | h | h | ⟨h, hN⟩ <;> subst h
  · rw [if_pos rfl]
    unfold bm1_time
    rw [hb_nonzeroIdx_replicate_zero]
    simp [bm1_loop]
  · rw [if_neg (by norm_num), if_pos rfl]
    unfold bm2_time
    rw [hb_nonzeroIdx_replicate_zero]
    simp only [List.length_nil, List.range_zero, List.foldl_nil, List.length_replicate]
    rw [hb_zip_replicate, List.map_replicate]
    norm_num
  · rw [if_neg (by norm_num), if_neg (by norm_num), if_pos (by norm_num)]
    unfold bm345_time
    rw [hb_bm345_xt_zeros _ _ _ _ hwl hdvd (Or.inl rfl)]
    simp only [Except.map]
    rw [hb_bm345_p_pen _ _ _ _ _ hbc, hb_bm345_marks_nil, hfin]
    norm_num
  · rw [if_neg (by norm_num), if_neg (by norm_num), if_pos (by norm_num)]
    unfold bm345_time
    rw [hb_bm345_xt_zeros _ _ _ _ hwl hdvd (Or.inr (Or.inl rfl))]
    simp only [Except.map]
    rw [hb_bm345_p_pen _ _ _ _ _ hbc, hb_bm345_marks_nil, hfin]
    norm_num
  · rw [if_neg (by norm_num), if_neg (by norm_num), if_pos (by norm_num)]
    unfold bm345_time
    rw [hb_bm345_xt_zeros _ _ _ _ hwl hdvd (Or.inr (Or.inr ⟨rfl, hN⟩))]
    simp only [Except.map]
    rw [hb_bm345_p_pen _ _ _ _ _ hbc, hb_bm345_marks_nil, hfin]
    norm_num

/-- For selector 3 with an epoch length of 30 or 60 seconds (60 / wlen at
most 2) and a series of more than 60 / wlen epochs, the break-detection
slice assignment `lookforbreaks[N//2 : -N//2+1] = moving_mean(x, N, 1)`
(core.py line 490) has an empty left-hand slice and a right-hand side of
length at least 2, so it raises a numpy broadcast ValueError — for every
series and every threshold band. -/
theorem hb_bm3_raises (accm : List ℚ) (l u : ℚ) (wlen bd : ℕ) (bc : ℚ) (cb : Bool)
    (hwl : 0 < wlen) (hdvd : wlen ∣ 60) (hN2 : 60 / wlen ≤ 2)
    (hn : 60 / wlen < accm.length) :
    get_activity_bouts accm l u wlen bd bc cb 3
      = .error "ValueError: could not broadcast input array into slice" := by
  have hN1 : 1 ≤ 60 / wlen :=
    (Nat.one_le_div_iff hwl).mpr (Nat.le_of_dvd (by norm_num) hdvd)
  have hmask_len : (actMask accm l u).length = accm.length := by
    unfold actMask
    rw [List.length_map]
  unfold get_activity_bouts
  rw [if_neg (by norm_num), if_neg (by norm_num), if_pos (by norm_num)]
  unfold bm345_time
  have hxt : bm345_xt (actMask accm l u) wlen (bd * 60 / wlen) 3
      = .error "ValueError: could not broadcast input array into slice" := by
    have h5 : ¬((3 : ℕ) = 5) := by norm_num
    have hmml : (moving_mean (castZ (actMask accm l u)) (60 / wlen) 1).length
        = accm.length - 60 / wlen + 1 := by
      have hcl : (castZ (actMask accm l u)).length = accm.length := by
        unfold castZ
        rw [List.length_map, hmask_len]
      rw [hb_moving_mean_length _ _ _ (by omega) one_pos (by rw [hcl]; omega),
        Nat.div_one, hcl]
    simp only [bm345_xt, hmask_len]
    simp only [if_true]
    rw [if_neg h5]
    have h2 : 2 ≤ (moving_mean (castZ (actMask accm l u)) (60 / wlen) 1).length := by
      rw [hmml]
      omega
    have hne : (moving_mean (castZ (actMask accm l u)) (60 / wlen) 1).length
        ≠ pyBound (1 - (((60 / wlen + 1) / 2 : ℕ) : ℤ))
            (List.replicate accm.length (0 : ℚ)).length
          - pyBound ((60 / wlen / 2 : ℕ) : ℤ)
            (List.replicate accm.length (0 : ℚ)).length := by
      rw [hmml, List.length_replicate, hb_bm3_L accm.length (60 / wlen) hN2 hN1]
      omega
    rw [hb_npSetSlice_err _ _ _ _ h2 hne]
    rfl
  rw [hxt]
  rfl

/-- C4 amended: on a degenerate input — empty epoch series or a series with
no epoch in the threshold band — get_activity_bouts returns 0 without
raising for selectors 1, 2, 4 and 5 at every epoch length dividing 60, and
for selector 3 exactly when 60 / wlen is at least 3 (epoch lengths up to 20
seconds) or the series has at most 60 / wlen epochs (the 1-minute moving
mean then has length at most 1 and assigns into the empty break slice
without error); for selector 3 with a 30- or 60-second epoch and more than
60 / wlen epochs, the break-detection slice assignment raises a numpy
broadcast ValueError, for every series and band. -/
theorem c4_amended (accm : List ℚ) (l u : ℚ) (wlen bd : ℕ) (bc : ℚ) (cb : Bool)
    (bm : ℕ) (hwl : 0 < wlen) (hdvd : wlen ∣ 60) :
    (0 < bc → (∀ a ∈ accm, ¬(l ≤ a ∧ a < u)) →
      (bm = 1 ∨ bm = 2 ∨ bm = 4 ∨ bm = 5
        ∨ (bm = 3 ∧ (3 ≤ 60 / wlen ∨ accm.length ≤ 60 / wlen))) →
      get_activity_bouts accm l u wlen bd bc cb bm = .ok 0) ∧
    (bm = 3 → 60 / wlen ≤ 2 → 60 / wlen < accm.length →
      get_activity_bouts accm l u wlen bd bc cb bm
        = .error "ValueError: could not broadcast input array into slice") :=
  ⟨fun hbc hoff hbm => hb_offband_zero accm l u wlen bd bc cb bm hwl hdvd hbc hoff hbm,
   fun h3 hN2 hn => by
    subst h3
    exact hb_bm3_raises accm l u wlen bd bc cb hwl hdvd hN2 hn⟩

/-- Witness for the amended C4 at concrete inputs: a 30-epoch all-zero
series against the band [1, 2) under selector 4 returns 0; a 2-epoch series
at a 60-second epoch under selector 3 raises the broadcast error. -/
theorem c4_amended_witness :
    get_activity_bouts (List.replicate 30 0) 1 2 5 1 (4 / 5) false 4 = .ok 0 ∧
    get_activity_bouts [0, 0] 1 2 60 1 (4 / 5) false 3
      = .error "ValueError: could not broadcast input array into slice" :=
  ⟨(c4_amended (List.replicate 30 0) 1 2 5 1 (4 / 5) false 4 (by norm_num)
      (by norm_num)).1 (by norm_num)
    (fun a ha => by
      have h0 : a = 0 := List.eq_of_mem_replicate ha
      rw [h0]
      norm_num)
    (Or.inr (Or.inr (Or.inl rfl))),
   (c4_amended [0, 0] 1 2 60 1 (4 / 5) false 3 (by norm_num) (by norm_num)).2
    rfl (by norm_num) (by norm_num)⟩

theorem hb_getD_range (n i d : ℕ) :
    (List.range n).getD i d = if i < n then i else d := by
  simp only [List.getD_eq_getElem?_getD]
  split
  · next h => simp [List.getElem?_range h]
  · next h =>
    rw [List.getElem?_eq_none (by simpa using h)]
    rfl

theorem hb_getD_set (l : List ℤ) (i j : ℕ) (v d : ℤ) :
    (l.set i v).getD j d = if i = j ∧ j < l.length then v else l.getD j d := by
  simp only [List.getD_eq_getElem?_getD, List.getElem?_set]
  by_cases hij : i = j
  · subst hij
    by_cases hl : i < l.length
    · simp [hl]
    · have hnone : l[i]? = none := List.getElem?_eq_none (by omega)
      simp [hl, hnone]
  · simp [hij]

theorem hb_getD_mem (l : List ℤ) (n : ℕ) (d : ℤ) (h : n < l.length) :
    l.getD n d ∈ l := by
  rw [List.getD_eq_getElem?_getD, List.getElem?_eq_getElem h]
  exact List.getElem_mem h

theorem hb_foldl_inv {β γ} (P : β → Prop) (f : β → γ → β) (l : List γ)
    (hstep : ∀ st x, x ∈ l → P st → P (f st x)) :
    ∀ init, P init → P (l.foldl f init) := by
  induction l with
  | nil => intro init h; exact h
  | cons x xs ih =>
    intro init h
    rw [List.foldl_cons]
    exact ih (fun st y hy => hstep st y (List.mem_cons_of_mem x hy))
      (f init x) (hstep init x (List.mem_cons_self x xs) h)

theorem hb_setIdxs_length (a : List ℤ) (idxs : List ℕ) (v : ℤ) :
    (setIdxs a idxs v).length = a.length := by
  unfold setIdxs
  induction idxs generalizing a with
  | nil => rfl
  | cons j js ih => rw [List.foldl_cons, ih, List.length_set]

theorem hb_setIdxs_getD (a : List ℤ) (idxs : List ℕ) (v d : ℤ) (i : ℕ) :
    (setIdxs a idxs v).getD i d
      = if i ∈ idxs ∧ i < a.length then v else a.getD i d := by
  unfold setIdxs
  induction idxs generalizing a with
  | nil => simp
  | cons j js ih =>
    rw [List.foldl_cons, ih, List.length_set, hb_getD_set]
    by_cases hj : i ∈ js ∧ i < a.length
    · rw [if_pos hj, if_pos ⟨List.mem_cons_of_mem j hj.1, hj.2⟩]
    · rw [if_neg hj]
      by_cases hji : j = i ∧ i < a.length
      · rw [if_pos hji, if_pos ⟨by simp [hji.1], hji.2⟩]
      · rw [if_neg hji, if_neg (by
          intro hc
          rcases List.mem_cons.mp hc.1 with h | h
          · exact hji ⟨h.symm, hc.2⟩
          · exact hj ⟨h, hc.2⟩)]

/-! ## C6 amended -/

/-- C6 amended: the monotonicity in bout duration fails in general for
every selector in 2..5, as the counterexample shows; it does hold
degenerately whenever no epoch of the series lies in the threshold band,
since every bout duration then credits exactly 0 minutes. -/
theorem c6_amended (accm : List ℚ) (l u : ℚ) (wlen bd : ℕ) (bc : ℚ) (cb : Bool)
    (bm : ℕ) (hwl : 0 < wlen) (hdvd : wlen ∣ 60) (hbc : 0 < bc)
    (hoff : ∀ a ∈ accm, ¬(l ≤ a ∧ a < u))
    (hbm : bm = 2 ∨ bm = 4 ∨ bm = 5 ∨ (bm = 3 ∧ (3 ≤ 60 / wlen ∨ accm = [])))
    (v1 v2 : ℚ)
    (h1 : get_activity_bouts accm l u wlen bd bc cb bm = .ok v1)
    (h2 : get_activity_bouts accm l u wlen (bd + 1) bc cb bm = .ok v2) :
    v2 ≤ v1 := by
  have hbm2 : bm = 1 ∨ bm = 2 ∨ bm = 4 ∨ bm = 5
      ∨ (bm = 3 ∧ (3 ≤ 60 / wlen ∨ accm.length ≤ 60 / wlen)) := by
    rcases hbm with h | h | h | ⟨h3, hc⟩
    · exact Or.inr (Or.inl h)
    · exact Or.inr (Or.inr (Or.inl h))
    · exact Or.inr (Or.inr (Or.inr (Or.inl h)))
    · refine Or.inr (Or.inr (Or.inr (Or.inr ⟨h3, ?_⟩)))
      rcases hc with hc | hc
      · exact Or.inl hc
      · right
        rw [hc]
        simp
  rw [hb_offband_zero accm l u wlen bd bc cb bm hwl hdvd hbc hoff hbm2] at h1
  rw [hb_offband_zero accm l u wlen (bd + 1) bc cb bm hwl hdvd hbc hoff hbm2] at h2
  injection h1 with h1
  injection h2 with h2
  rw [← h1, ← h2]

/-- Witness for the amended C6: a concrete all-out-of-band series under
selector 2, durations 1 and 2 minutes. -/
theorem c6_amended_witness :
    get_activity_bouts (List.replicate 5 (0 : ℚ)) 1 2 5 1 (4 / 5) false 2 = .ok 0 ∧
    get_activity_bouts (List.replicate 5 (0 : ℚ)) 1 2 5 2 (4 / 5) false 2 = .ok 0 ∧
    (0 : ℚ) ≤ 0 :=
  ⟨by decide, by decide,
    c6_amended (List.replicate 5 0) 1 2 5 1 (4 / 5) false 2 (by norm_num) (by norm_num)
      (by norm_num)
      (fun a ha => by rw [List.eq_of_mem_replicate ha]; norm_num)
      (Or.inl rfl) 0 0 (by decide) (by decide)⟩

theorem hb_actMask_inband (l u : ℚ) :
    ∀ accm : List ℚ, (∀ a ∈ accm, l ≤ a ∧ a < u) →
      actMask accm l u = List.replicate accm.length 1
  | [], _ => rfl
  | a :: as, h => by
    have ht := hb_actMask_inband l u as (fun b hb => h b (List.mem_cons_of_mem a hb))
    simp only [actMask, List.map_cons, List.length_cons, List.replicate_succ] at ht ⊢
    rw [if_pos (h a (List.mem_cons_self a as))]
    rw [ht]

theorem hb_nonzeroIdx_replicate_one (n : ℕ) :
    nonzeroIdx (List.replicate n 1) = List.range n := by
  unfold nonzeroIdx
  rw [List.length_replicate]
  apply List.filter_eq_self.mpr
  intro i hi
  rw [hb_getD_replicate, if_pos (List.mem_range.mp hi)]
  simp

theorem hb_sumSliceZ_replicate_one (n a b : ℕ) :
    sumSliceZ (List.replicate n 1) a b = ((min b n - a : ℕ) : ℤ) := by
  unfold sumSliceZ
  rw [List.take_replicate, List.drop_replicate, List.sum_replicate]
  simp

theorem hb_sum_ones : ∀ xs : List ℚ, (∀ a ∈ xs, a = 1) → xs.sum = xs.length
  | [], _ => rfl
  | a :: as, h => by
    rw [List.sum_cons, h a (List.mem_cons_self a as),
      hb_sum_ones as (fun b hb => h b (List.mem_cons_of_mem a hb))]
    simp
    ring

theorem hb_bm2_inband (n nb wlen : ℕ) (bc : ℚ) (hbc : bc ≤ 1) :
    bm2_time (List.replicate n 1) nb bc wlen = (n : ℚ) * ((wlen : ℚ) / 60) := by
  unfold bm2_time
  rw [hb_nonzeroIdx_replicate_one]
  simp only [List.length_replicate, List.length_range]
  have hinv := hb_foldl_inv
    (fun st : List ℤ × List ℤ => st.1 = List.replicate n 1 ∧ st.2.length = n)
    (bm2_step nb bc (List.range n)) (List.range n)
    (by
      rintro ⟨x, xt⟩ i hi ⟨hx, hxt⟩
      subst hx
      have hin : i < n := List.mem_range.mp hi
      unfold bm2_step
      simp only [List.length_replicate, List.length_range, hb_getD_range, if_pos hin]
      by_cases he : i + nb < n
      · rw [if_pos he, if_pos (by
          rw [hb_sumSliceZ_replicate_one, min_eq_left (by omega : i + nb + 1 ≤ n),
            (by omega : i + nb + 1 - i = nb + 1)]
          push_cast
          have h1 : (nb : ℚ) * bc ≤ (nb : ℚ) * 1 :=
            mul_le_mul_of_nonneg_left hbc (by positivity)
          rw [mul_one] at h1
          linarith)]
        exact ⟨rfl, by rw [hb_setIdxs_length]; exact hxt⟩
      · rw [if_neg he]
        by_cases hb2 : n > 1 ∧ i > 2
        · rw [if_pos hb2, if_pos (show i - 1 < n by omega), hb_getD_replicate,
            if_pos (show i - 1 < n by omega)]
          exact ⟨List.set_replicate_self .., hxt⟩
        · rw [if_neg hb2]
          exact ⟨rfl, hxt⟩)
    (List.replicate n 1, List.replicate n 0) ⟨rfl, by simp⟩
  obtain ⟨hfst, hsnd⟩ := hinv
  rw [hfst]
  have hall : ∀ a ∈ (List.zip (List.replicate n (1 : ℤ))
      ((List.range n).foldl (bm2_step nb bc (List.range n))
        (List.replicate n 1, List.replicate n 0)).2).map
      (fun q => if q.2 = 2 then (1 : ℚ) else (q.1 : ℚ)), a = 1 := by
    intro a ha
    obtain ⟨q, hq, rfl⟩ := List.mem_map.mp ha
    have h1 : q.1 ∈ List.replicate n (1 : ℤ) := (List.of_mem_zip hq).1
    rw [List.eq_of_mem_replicate h1]
    split <;> simp
  rw [hb_sum_ones _ hall]
  rw [List.length_map, List.length_zip, List.length_replicate, hsnd, min_self]

/-- C5 amended: the two-sided promise holds in full for selector 2 — exactly
0 for a series entirely below the lower threshold and the full series
duration accm.size * wlen / 60 for a series entirely inside the band, for
every bout criterion in (0, 1] — while the full-duration half fails for
selectors 1, 3, 4 and 5, as the counterexample shows (selector 1 credits 0
at boutcrit = 1, selectors 3-5 penalise boundary epochs and never credit
epoch 0). -/
theorem c5_amended (accm : List ℚ) (l u : ℚ) (wlen bd : ℕ) (bc : ℚ) (cb : Bool)
    (hwl : 0 < wlen) (hdvd : wlen ∣ 60) (hbc0 : 0 < bc) (hbc1 : bc ≤ 1) :
    ((∀ a ∈ accm, ¬(l ≤ a ∧ a < u)) →
      get_activity_bouts accm l u wlen bd bc cb 2 = .ok 0) ∧
    ((∀ a ∈ accm, l ≤ a ∧ a < u) →
      get_activity_bouts accm l u wlen bd bc cb 2
        = .ok ((accm.length : ℚ) * wlen / 60)) := by
  constructor
  · intro hoff
    exact hb_offband_zero accm l u wlen bd bc cb 2 hwl hdvd hbc0 hoff
      (Or.inr (Or.inl rfl))
  · intro hin
    unfold get_activity_bouts
    rw [hb_actMask_inband l u accm hin, if_neg (by norm_num), if_pos rfl,
      hb_bm2_inband _ _ _ _ hbc1, mul_div_assoc]

/-- Witness for the amended C5: both halves at concrete inputs — a 4-epoch
all-below series and a 4-epoch all-in-band series, 20-second epochs,
criterion 4/5, selector 2. -/
theorem c5_amended_witness :
    get_activity_bouts (List.replicate 4 (0 : ℚ)) 1 2 20 1 (4 / 5) false 2 = .ok 0 ∧
    get_activity_bouts (List.replicate 4 ((3 : ℚ) / 2)) 1 2 20 1 (4 / 5) false 2
      = .ok (((List.replicate 4 ((3 : ℚ) / 2)).length : ℚ) * 20 / 60) :=
  ⟨(c5_amended (List.replicate 4 0) 1 2 20 1 (4 / 5) false (by norm_num) (by norm_num)
      (by norm_num) (by norm_num)).1
    (fun a ha => by rw [List.eq_of_mem_replicate ha]; norm_num),
  (c5_amended (List.replicate 4 ((3 : ℚ) / 2)) 1 2 20 1 (4 / 5) false (by norm_num)
      (by norm_num) (by norm_num) (by norm_num)).2
    (fun a ha => by rw [List.eq_of_mem_replicate ha]; norm_num)⟩

theorem hb_getD_default {α} (l : List α) (i : ℕ) (d : α) (h : l.length ≤ i) :
    l.getD i d = d := by
  rw [List.getD_eq_getElem?_getD, List.getElem?_eq_none h]
  rfl

theorem hb_actMask_mem (accm : List ℚ) (l u : ℚ) :
    ∀ a ∈ actMask accm l u, a = 0 ∨ a = 1 := by
  intro a ha
  obtain ⟨q, _, rfl⟩ := List.mem_map.mp ha
  split <;> simp

theorem hb_npSetSlice_ok_len {α} (arr : List α) (a b : ℤ) (vals res : List α)
    (h : npSetSlice arr a b vals = .ok res) : res.length = arr.length := by
  have h1 := hb_pyBound_le a arr.length
  have h2 := hb_pyBound_le b arr.length
  simp only [npSetSlice] at h
  split at h
  · injection h with h
    subst h
    simp only [List.length_append, List.length_take, List.length_drop]
    omega
  · split at h
    · injection h with h
      subst h
      simp only [List.length_append, List.length_take, List.length_drop,
        List.length_replicate]
      omega
    · exact absurd h (by simp)

theorem hb_marks_length (xt : List ℤ) (p : List ℕ) (nb : ℕ) :
    (bm345_marks xt p nb).length = xt.length := by
  unfold bm345_marks
  generalize List.range nb = gis
  induction gis generalizing xt with
  | nil => rfl
  | cons g gs ih =>
    rw [List.foldl_cons, ih, hb_setIdxs_length]

theorem hb_sum01 : ∀ xs : List ℚ, (∀ a ∈ xs, a = 0 ∨ a = 1) →
    0 ≤ xs.sum ∧ xs.sum ≤ xs.length
  | [], _ => by simp
  | a :: as, h => by
    have ih := hb_sum01 as (fun b hb => h b (List.mem_cons_of_mem a hb))
    have ha := h a (List.mem_cons_self a as)
    rw [List.sum_cons, List.length_cons]
    push_cast
    rcases ha with h0 | h1 <;> constructor <;> first
      | (rw [h0]; linarith [ih.1, ih.2])
      | (rw [h1]; linarith [ih.1, ih.2])

theorem hb_sum01Z : ∀ xs : List ℤ, (∀ a ∈ xs, a = 0 ∨ a = 1) →
    0 ≤ xs.sum ∧ xs.sum ≤ xs.length
  | [], _ => by simp
  | a :: as, h => by
    have ih := hb_sum01Z as (fun b hb => h b (List.mem_cons_of_mem a hb))
    have ha := h a (List.mem_cons_self a as)
    rw [List.sum_cons, List.length_cons]
    rcases ha with h0 | h1 <;> constructor <;> omega

theorem hb_bm345_xt_ok (mask : List ℤ) (wlen nb bm : ℕ) (xt1 : List ℤ)
    (h : bm345_xt mask wlen nb bm = .ok xt1) :
    xt1.length = mask.length ∧
      ∀ a ∈ xt1, a = -(((60 * nb) / wlen : ℕ) : ℤ) ∨ a ∈ mask := by
  unfold bm345_xt at h
  simp only [Except.map] at h
  split at h
  · exact absurd h (by simp)
  · next lfb heq =>
    injection h with h
    subst h
    have hlen : lfb.length = mask.length := by
      have := hb_npSetSlice_ok_len _ _ _ _ _ heq
      simpa using this
    constructor
    · rw [List.length_map, List.length_zip, hlen, min_self]
    · intro a ha
      obtain ⟨q, hq, rfl⟩ := List.mem_map.mp ha
      split
      · exact Or.inl rfl
      · exact Or.inr (List.of_mem_zip hq).2

theorem hb_getD_memP {α} (l : List α) (n : ℕ) (d : α) (h : n < l.length) :
    l.getD n d ∈ l := by
  rw [List.getD_eq_getElem?_getD, List.getElem?_eq_getElem h]
  exact List.getElem_mem h

theorem hb_getD_map (l : List ℤ) (f : ℤ → ℤ) (i : ℕ) (d d2 : ℤ) (h : i < l.length) :
    (l.map f).getD i d2 = f (l.getD i d) := by
  simp only [List.getD_eq_getElem?_getD, List.getElem?_map,
    List.getElem?_eq_getElem h]
  rfl

theorem hb_marks_sound (xt : List ℤ) (p : List ℕ) (nb i : ℕ)
    (h : (bm345_marks xt p nb).getD i 0 = 2) :
    xt.getD i 0 = 2 ∨ ∃ w ∈ p, ∃ g, g < nb ∧ i = w + g ∧ 0 < i ∧ i < xt.length := by
  unfold bm345_marks at h
  have haux : ∀ (gis : List ℕ) (a : List ℤ),
      (gis.foldl (fun a gi => setIdxs a ((p.map (fun q => q + gi)).filter
        (fun j => decide (0 < j ∧ j < a.length))) 2) a).getD i 0 = 2 →
      a.getD i 0 = 2 ∨ ∃ w ∈ p, ∃ g ∈ gis, i = w + g ∧ 0 < i ∧ i < a.length := by
    intro gis
    induction gis with
    | nil => intro a ha; exact Or.inl ha
    | cons g0 gs ih =>
      intro a ha
      rw [List.foldl_cons] at ha
      rcases ih _ ha with h1 | ⟨w, hw, g, hg, hig, hpos, hlt⟩
      · rw [hb_setIdxs_getD] at h1
        split at h1
        · next hc =>
          obtain ⟨hmem, _⟩ := hc
          rw [List.mem_filter] at hmem
          obtain ⟨hmm, hcond⟩ := hmem
          obtain ⟨w, hw, rfl⟩ := List.mem_map.mp hmm
          have hcond2 := of_decide_eq_true hcond
          exact Or.inr ⟨w, hw, g0, List.mem_cons_self g0 gs, rfl, hcond2.1, hcond2.2⟩
        · exact Or.inl h1
      · rw [hb_setIdxs_length] at hlt
        exact Or.inr ⟨w, hw, g, List.mem_cons_of_mem g0 hg, hig, hpos, hlt⟩
  rcases haux (List.range nb) xt h with h1 | ⟨w, hw, g, hg, hig, hpos, hlt⟩
  · exact Or.inl h1
  · exact Or.inr ⟨w, hw, g, List.mem_range.mp hg, hig, hpos, hlt⟩

theorem hb_posIdx_mem {α β} (p0 : List α) (keep : List β) (cond : ℕ → Bool) (d : α)
    (hk : keep.length ≤ p0.length) :
    ∀ w ∈ ((List.range keep.length).filter cond).map (fun j => p0.getD j d), w ∈ p0 := by
  intro w hw
  obtain ⟨j, hj, rfl⟩ := List.mem_map.mp hw
  have hjr := List.mem_range.mp (List.mem_filter.mp hj).1
  exact hb_getD_memP _ _ _ (lt_of_lt_of_le hjr hk)

set_option maxHeartbeats 1000000 in
theorem hb_bm4_p_mem (mask xt : List ℤ) (nb : ℕ) (bc : ℚ) :
    ∀ w ∈ bm345_p mask xt nb 4 bc,
      w < (moving_mean (castZ xt) nb 1).length ∧
        bc < (moving_mean (castZ xt) nb 1).getD w 0 := by
  intro w hw
  simp only [bm345_p, if_neg (show ¬((4 : ℕ) = 3) from by norm_num),
    if_neg (show ¬((4 : ℕ) = 5) from by norm_num)] at hw
  have hwp0 := hb_posIdx_mem _ _ _ _
    (le_trans (List.length_filter_le _ _) (le_of_eq (List.length_map _ _))) w hw
  rw [List.mem_filter] at hwp0
  exact ⟨List.mem_range.mp hwp0.1, of_decide_eq_true hwp0.2⟩

/-- C7 amended: every epoch credited by boutmetric 4 is covered by some
window whose nboutdur-epoch moving average of the penalised series passes
the criterion, and lies strictly after epoch 0 — but, contrary to the
claim, the surviving windows need not have their own first and last epochs
in band: the boundary probes sit at offset start = floor((nb+1)/2) - 1 -
round(nb/2), the epoch before the window for even nboutdur, as the
counterexample shows. -/
theorem c7_amended (accm : List ℚ) (l u : ℚ) (wlen nb : ℕ) (bc : ℚ) (xt1 : List ℤ)
    (hxt : bm345_xt (actMask accm l u) wlen nb 4 = .ok xt1) (i : ℕ)
    (hcredit : ((bm345_marks xt1 (bm345_p (actMask accm l u) xt1 nb 4 bc) nb).map
      (fun t => if t = 2 then (1 : ℤ) else 0)).getD i 0 = 1) :
    0 < i ∧ ∃ w, w < (moving_mean (castZ xt1) nb 1).length ∧
      bc < (moving_mean (castZ xt1) nb 1).getD w 0 ∧ w ≤ i ∧ i < w + nb := by
  by_cases hlen : i < (bm345_marks xt1 (bm345_p (actMask accm l u) xt1 nb 4 bc) nb).length
  · rw [hb_getD_map _ _ _ 0 _ hlen] at hcredit
    have h2 : (bm345_marks xt1 (bm345_p (actMask accm l u) xt1 nb 4 bc) nb).getD i 0 = 2 := by
      by_contra hne
      rw [if_neg hne] at hcredit
      exact absurd hcredit (by norm_num)
    rcases hb_marks_sound xt1 _ nb i h2 with hxtd | ⟨w, hw, g, hg, hig, hpos, _⟩
    · have hmem := hb_bm345_xt_ok _ _ _ _ _ hxt
      by_cases hi2 : i < xt1.length
      · rcases hmem.2 _ (hb_getD_mem xt1 i 0 hi2) with hpen | hmask
        · rw [hxtd] at hpen
          have h0 : (0 : ℤ) ≤ (((60 * nb) / wlen : ℕ) : ℤ) := Int.natCast_nonneg _
          linarith
        · rcases hb_actMask_mem accm l u _ hmask with h0 | h1 <;> omega
      · rw [hb_getD_default xt1 i 0 (by omega)] at hxtd
        exact absurd hxtd (by norm_num)
    · have hbm4 := hb_bm4_p_mem (actMask accm l u) xt1 nb bc w hw
      exact ⟨hpos, w, hbm4.1, hbm4.2, by omega, by omega⟩
  · have hle : ((bm345_marks xt1 (bm345_p (actMask accm l u) xt1 nb 4 bc) nb).map
        (fun t => if t = 2 then (1 : ℤ) else 0)).length ≤ i := by
      rw [List.length_map]
      omega
    rw [hb_getD_default _ _ _ hle] at hcredit
    exact absurd hcredit (by norm_num)

/-- Witness for the amended C7 at the counterexample input: credited epoch
5 is covered by the criterion-passing window 3. -/
theorem c7_amended_witness :
    0 < 5 ∧ ∃ w, w < (moving_mean (castZ [-9, 0, 1, 0, 1, 1, -9]) 3 1).length ∧
      (1 : ℚ) / 2 < (moving_mean (castZ [-9, 0, 1, 0, 1, 1, -9]) 3 1).getD w 0 ∧
      w ≤ 5 ∧ 5 < w + 3 :=
  c7_amended (serBits [0, 0, 1, 0, 1, 1, 0]) 1 2 20 3 (1 / 2) [-9, 0, 1, 0, 1, 1, -9]
    (by decide) 5 (by decide)

theorem hb_time_bounds (n wlen : ℕ) (s : ℚ) (h0 : 0 ≤ s) (h1 : s ≤ n) :
    0 ≤ s * ((wlen : ℚ) / 60) ∧ s * ((wlen : ℚ) / 60) ≤ (n : ℚ) * wlen / 60 := by
  have hw : (0 : ℚ) ≤ (wlen : ℚ) / 60 := by positivity
  refine ⟨mul_nonneg h0 hw, ?_⟩
  rw [mul_div_assoc]
  exact mul_le_mul_of_nonneg_right h1 hw

theorem hb_bm2_bounds (mask : List ℤ) (nb wlen : ℕ) (bc : ℚ)
    (hmask : ∀ a ∈ mask, a = 0 ∨ a = 1) :
    0 ≤ bm2_time mask nb bc wlen ∧
      bm2_time mask nb bc wlen ≤ (mask.length : ℚ) * wlen / 60 := by
  unfold bm2_time
  simp only [List.length_replicate]
  set p := nonzeroIdx mask with hp
  have hinv := hb_foldl_inv
    (fun st : List ℤ × List ℤ => (∀ a ∈ st.1, a = 0 ∨ a = 1) ∧
      st.1.length = mask.length ∧ st.2.length = mask.length)
    (bm2_step nb bc p) (List.range p.length)
    (by
      rintro ⟨x, xt⟩ i _ ⟨hx01, hxlen, hxtlen⟩
      unfold bm2_step
      by_cases he : p.getD i 0 + nb < x.length
      · rw [if_pos he]
        split
        · exact ⟨hx01, hxlen, by rw [hb_setIdxs_length]; exact hxtlen⟩
        · refine ⟨?_, by rw [List.length_set]; exact hxlen, hxtlen⟩
          intro a ha
          rcases List.mem_or_eq_of_mem_set ha with h | h
          · exact hx01 a h
          · exact Or.inl h
      · rw [if_neg he]
        split
        · refine ⟨?_, by rw [List.length_set]; exact hxlen, hxtlen⟩
          intro a ha
          rcases List.mem_or_eq_of_mem_set ha with h | h
          · exact hx01 a h
          · subst h
            by_cases hj : p.getD (i - 1) 0 < x.length
            · exact hx01 _ (hb_getD_mem x _ 0 hj)
            · rw [hb_getD_default x _ 0 (by omega)]
              exact Or.inl rfl
        · exact ⟨hx01, hxlen, hxtlen⟩)
    (mask, List.replicate mask.length 0) ⟨hmask, rfl, by simp⟩
  obtain ⟨h01, hlen1, hlen2⟩ := hinv
  have hxf01 : ∀ a ∈ (List.zip
      ((List.range p.length).foldl (bm2_step nb bc p) (mask, List.replicate mask.length 0)).1
      ((List.range p.length).foldl (bm2_step nb bc p) (mask, List.replicate mask.length 0)).2).map
      (fun q => if q.2 = 2 then (1 : ℚ) else (q.1 : ℚ)), a = 0 ∨ a = 1 := by
    intro a ha
    obtain ⟨q, hq, rfl⟩ := List.mem_map.mp ha
    split
    · exact Or.inr rfl
    · rcases h01 q.1 (List.of_mem_zip hq).1 with h | h <;> rw [h] <;> simp
  have hsum := hb_sum01 _ hxf01
  have hlen : ((List.zip
      ((List.range p.length).foldl (bm2_step nb bc p) (mask, List.replicate mask.length 0)).1
      ((List.range p.length).foldl (bm2_step nb bc p) (mask, List.replicate mask.length 0)).2).map
      (fun q => if q.2 = 2 then (1 : ℚ) else (q.1 : ℚ))).length = mask.length := by
    rw [List.length_map, List.length_zip, hlen1, hlen2, min_self]
  have h2 := hsum.2
  rw [hlen] at h2
  exact hb_time_bounds mask.length wlen _ hsum.1 h2

theorem hb_bm345_bounds (mask : List ℤ) (wlen nb bm : ℕ) (bc₀ : ℚ) (v : ℚ)
    (hok : bm345_time mask wlen nb bm bc₀ = .ok v) :
    0 ≤ v ∧ v ≤ (mask.length : ℚ) * wlen / 60 := by
  unfold bm345_time at hok
  simp only [Except.map] at hok
  split at hok
  · exact absurd hok (by simp)
  · next xt1 heq =>
    injection hok with hok
    subst hok
    have hxt := hb_bm345_xt_ok _ _ _ _ _ heq
    have h01 : ∀ a ∈ (bm345_marks xt1 (bm345_p mask xt1 nb bm bc₀) nb).map
        (fun t => if t = 2 then (1 : ℤ) else 0), a = 0 ∨ a = 1 := by
      intro a ha
      obtain ⟨t, _, rfl⟩ := List.mem_map.mp ha
      split
      · exact Or.inr rfl
      · exact Or.inl rfl
    have hsum := hb_sum01Z _ h01
    have hlen : ((bm345_marks xt1 (bm345_p mask xt1 nb bm bc₀) nb).map
        (fun t => if t = 2 then (1 : ℤ) else 0)).length = mask.length := by
      rw [List.length_map, hb_marks_length, hxt.1]
    refine hb_time_bounds mask.length wlen _ (by exact_mod_cast hsum.1) ?_
    have h2 := hsum.2
    rw [hlen] at h2
    exact_mod_cast h2

/-- C10: for selectors 2, 3, 4 and 5, whenever get_activity_bouts returns a
value it lies in the closed interval [0, accm.size * wlen / 60]: the
credited time is wlen/60 times the number of ones in a same-length 0/1
relabelling of the series, so it is never negative and never exceeds the
total duration of the input in minutes. -/
theorem c10_bounds (accm : List ℚ) (l u : ℚ) (wlen bd : ℕ) (bc : ℚ) (cb : Bool)
    (bm : ℕ) (hbm : bm = 2 ∨ bm = 3 ∨ bm = 4 ∨ bm = 5) (v : ℚ)
    (hok : get_activity_bouts accm l u wlen bd bc cb bm = .ok v) :
    0 ≤ v ∧ v ≤ (accm.length : ℚ) * wlen / 60 := by
  have hmlen : (actMask accm l u).length = accm.length := List.length_map _ _
  unfold get_activity_bouts at hok
  rcases hbm with h | h | h | h <;> subst h
  · rw [if_neg (by norm_num), if_pos rfl] at hok
    injection hok with hok
    subst hok
    have := hb_bm2_bounds (actMask accm l u) (bd * 60 / wlen) wlen bc
      (hb_actMask_mem accm l u)
    rw [hmlen] at this
    exact this
  · rw [if_neg (by norm_num), if_neg (by norm_num),
      if_pos (Or.inl rfl)] at hok
    have := hb_bm345_bounds (actMask accm l u) wlen (bd * 60 / wlen) 3 bc v hok
    rw [hmlen] at this
    exact this
  · rw [if_neg (by norm_num), if_neg (by norm_num),
      if_pos (Or.inr (Or.inl rfl))] at hok
    have := hb_bm345_bounds (actMask accm l u) wlen (bd * 60 / wlen) 4 bc v hok
    rw [hmlen] at this
    exact this
  · rw [if_neg (by norm_num), if_neg (by norm_num),
      if_pos (Or.inr (Or.inr rfl))] at hok
    have := hb_bm345_bounds (actMask accm l u) wlen (bd * 60 / wlen) 5 bc v hok
    rw [hmlen] at this
    exact this

/-- Witness for C10 at a concrete input: a mixed series under selector 3
with 20-second epochs returns 5/3 minutes, inside [0, 8*20/60]. -/
theorem c10_bounds_witness :
    get_activity_bouts (serBits [0, 0, 1, 0, 1, 1, 1, 0]) 1 2 20 1 (1 / 2) false 3
      = .ok (5 / 3) ∧
    0 ≤ (5 / 3 : ℚ) ∧
      (5 / 3 : ℚ) ≤ ((serBits [0, 0, 1, 0, 1, 1, 1, 0]).length : ℚ) * 20 / 60 :=
  ⟨by decide,
    c10_bounds (serBits [0, 0, 1, 0, 1, 1, 1, 0]) 1 2 20 1 (1 / 2) false 3
      (Or.inr (Or.inl rfl)) (5 / 3) (by decide)⟩
